import Mathlib

/-!
Verification development for `miner.go` of btc-miner-poc-windows.

Shallow embedding of the block header model, the compact-difficulty codec,
the statistics record and the `GPUMine` control loop.

Conventions of the embedding:
* Go's `uint8`, `uint32`, `uint64` are natural numbers; every arithmetic
  operation that can leave the range is followed by an explicit reduction
  modulo `2^8`, `2^32` or `2^64`, as the Go operation does.
* `*big.Int` values are `Int`.
* `[32]byte` is a list of byte values; the fixed length is part of
  `BlockHeader.WellFormed`.
* Console output is not modelled.
-/

namespace Miner

/-! ## Machine arithmetic -/

/-- Modulus of `uint8`. -/
def u8 : Nat := 256

/-- Modulus of `uint32`. -/
def u32 : Nat := 4294967296

/-- Modulus of `uint64`. -/
def u64 : Nat := 18446744073709551616

/-- Subtraction of two `uint8` values, as Go computes it (wrapping). -/
def u8sub (a b : Nat) : Nat := (a + u8 - b % u8) % u8

/-- Multiplication of two `uint8` values, as Go computes it (wrapping). -/
def u8mul (a b : Nat) : Nat := (a * b) % u8

/-! ## Block header -/

/-- Go struct `BlockHeader`. -/
structure BlockHeader where
  Version : Nat
  PrevBlockHash : List Nat
  MerkleRoot : List Nat
  Timestamp : Nat
  Bits : Nat
  Nonce : Nat
deriving DecidableEq, Repr

/-- Typing invariant of the Go struct: four `uint32` fields and two
`[32]byte` arrays. -/
def BlockHeader.WellFormed (bh : BlockHeader) : Prop :=
  bh.Version < u32 ∧
  (bh.PrevBlockHash.length = 32 ∧ ∀ b ∈ bh.PrevBlockHash, b < 256) ∧
  (bh.MerkleRoot.length = 32 ∧ ∀ b ∈ bh.MerkleRoot, b < 256) ∧
  bh.Timestamp < u32 ∧ bh.Bits < u32 ∧ bh.Nonce < u32

instance (bh : BlockHeader) : Decidable bh.WellFormed := by
  unfold BlockHeader.WellFormed; infer_instance

/-- Bytes written by `binary.Write(&buffer, binary.LittleEndian, v)` for a
`uint32` value `v`. -/
def putUint32LE (v : Nat) : List Nat :=
  [v % 256, v / 256 % 256, v / 65536 % 256, v / 16777216 % 256]

/-- Go `(*BlockHeader).Serialize`. -/
def BlockHeader.Serialize (bh : BlockHeader) : List Nat :=
  putUint32LE bh.Version ++ bh.PrevBlockHash ++ bh.MerkleRoot ++
    putUint32LE bh.Timestamp ++ putUint32LE bh.Bits ++ putUint32LE bh.Nonce

/-- Little-endian value of a byte string. -/
def leValue : List Nat → Nat
  | [] => 0
  | b :: bs => b + 256 * leValue bs

/-- The `len` bytes of `bs` that start at offset `off`. -/
def bytesAt (bs : List Nat) (off len : Nat) : List Nat := (bs.drop off).take len

/-- Reader used to state the round-trip law (it is not part of `miner.go`):
the fields are read back at the fixed offsets 0, 4, 36, 68, 72, 76, the
integers as little-endian. -/
def decodeHeader (bs : List Nat) : BlockHeader :=
  { Version := leValue (bytesAt bs 0 4)
    PrevBlockHash := bytesAt bs 4 32
    MerkleRoot := bytesAt bs 36 32
    Timestamp := leValue (bytesAt bs 68 4)
    Bits := leValue (bytesAt bs 72 4)
    Nonce := leValue (bytesAt bs 76 4) }

/-! ## Target codec -/

/-- Go `(*big.Int).Lsh`. -/
def bigLsh (x : Int) (n : Nat) : Int := x * 2 ^ n

/-- Go `BitsToTarget`. The exponent is a `uint8`, so both shift counts are
computed in `uint8` arithmetic before they are widened. -/
def BitsToTarget (bits : Nat) : Int :=
  let exponent := (bits >>> 24) % u8
  let mantissa := bits &&& 0x00ffffff
  if exponent ≤ 3 then
    let mantissa := mantissa >>> (u8mul 8 (u8sub 3 exponent))
    Int.ofNat mantissa
  else
    let target := Int.ofNat mantissa
    bigLsh target (u8mul 8 (u8sub exponent 3))

/-! ## Floating point and time -/

/-- Values of an IEEE-754 binary64: NaN, the two infinities, the two zeros,
and the nonzero finite values (by their exact rational value). -/
inductive F64 where
  | nan
  | inf (neg : Bool)
  | zero (neg : Bool)
  | fin (q : ℚ)
deriving DecidableEq

/-- Round-to-nearest-even of a natural number to 53 significant bits: the
value of Go's `float64(n)` for an unsigned integer `n` below `2^1024`. -/
def roundNat53 (n : Nat) : Nat :=
  if n < 2 ^ 53 then n
  else
    let e := Nat.log2 n - 52
    let q := n / 2 ^ e
    let r := n % 2 ^ e
    let half := 2 ^ (e - 1)
    let q := if half < r ∨ (r = half ∧ q % 2 = 1) then q + 1 else q
    q * 2 ^ e

/-- Go conversion `float64(n)` of an unsigned integer. -/
def F64.ofNat (n : Nat) : F64 :=
  if n = 0 then F64.zero false else F64.fin (roundNat53 n)

/-- Go conversion `float64(i)` of a signed integer. -/
def F64.ofInt (i : Int) : F64 :=
  if i = 0 then F64.zero false
  else if i < 0 then F64.fin (-(roundNat53 i.natAbs : ℚ))
  else F64.fin (roundNat53 i.natAbs)

/-- IEEE-754 addition. The rounding of an exact nonzero finite result to
binary64 is the parameter `rnd`. -/
def F64.add (rnd : ℚ → F64) : F64 → F64 → F64
  | F64.nan, _ => F64.nan
  | _, F64.nan => F64.nan
  | F64.inf a, F64.inf b => if a = b then F64.inf a else F64.nan
  | F64.inf a, _ => F64.inf a
  | _, F64.inf b => F64.inf b
  | F64.zero a, F64.zero b => F64.zero (a && b)
  | F64.zero _, F64.fin q => F64.fin q
  | F64.fin p, F64.zero _ => F64.fin p
  | F64.fin p, F64.fin q => if p + q = 0 then F64.zero false else rnd (p + q)

/-- IEEE-754 division. The rounding of an exact nonzero finite quotient to
binary64 is the parameter `rnd`. -/
def F64.div (rnd : ℚ → F64) : F64 → F64 → F64
  | F64.nan, _ => F64.nan
  | _, F64.nan => F64.nan
  | F64.inf _, F64.inf _ => F64.nan
  | F64.zero _, F64.zero _ => F64.nan
  | F64.inf a, F64.zero b => F64.inf (xor a b)
  | F64.inf a, F64.fin q => F64.inf (xor a (decide (q < 0)))
  | F64.zero a, F64.inf b => F64.zero (xor a b)
  | F64.zero a, F64.fin q => F64.zero (xor a (decide (q < 0)))
  | F64.fin p, F64.inf b => F64.zero (xor (decide (p < 0)) b)
  | F64.fin p, F64.zero b => F64.inf (xor (decide (p < 0)) b)
  | F64.fin p, F64.fin q => rnd (p / q)

/-- Largest `time.Duration` (an `int64` count of nanoseconds). -/
def maxDuration : Int := 9223372036854775807

/-- Smallest `time.Duration`. -/
def minDuration : Int := -9223372036854775808

/-- Go `time.Second`, in nanoseconds. -/
def Second : Int := 1000000000

/-- Go `Time.Sub`: the difference of two instants (each in nanoseconds since
the zero `time.Time`), saturated to the range of `time.Duration`. -/
def timeSub (t u : Int) : Int :=
  if t - u > maxDuration then maxDuration
  else if t - u < minDuration then minDuration
  else t - u

/-- Go `Duration.Seconds`:
`float64(d / Second) + float64(d % Second) / 1e9`, with Go's truncating
integer division. -/
def durationSeconds (rnd : ℚ → F64) (d : Int) : F64 :=
  let sec := Int.tdiv d Second
  let nsec := Int.tmod d Second
  F64.add rnd (F64.ofInt sec) (F64.div rnd (F64.ofInt nsec) (F64.fin 1000000000))

/-- Seconds between the Unix epoch and the zero `time.Time`. -/
def unixToInternal : Int := 62135596800

/-- Go `Time.Unix` of an instant given in nanoseconds since the zero
`time.Time`. -/
def unixSeconds (t : Int) : Int := t / Second - unixToInternal

/-- Go conversion `uint32(x)` of an `int64`. -/
def toUint32 (x : Int) : Nat := (x % (u32 : Int)).toNat

/-! ## Mining statistics -/

/-- Go struct `MiningStats` (the mutex is not modelled: every method runs
under the lock, so each is one atomic state change). -/
structure MiningStats where
  HashesTried : Nat
  BlocksFound : Nat
  StartTime : Int
  LastUpdate : Int
  BestHash : Nat
  ClosestAttempts : List Nat
  TotalPower : F64
deriving DecidableEq

/-- The zero value `MiningStats{}`, as `NewGPUMiner` allocates it. -/
def MiningStats.fresh : MiningStats :=
  { HashesTried := 0, BlocksFound := 0, StartTime := 0, LastUpdate := 0,
    BestHash := 0, ClosestAttempts := [], TotalPower := F64.zero false }

/-- Go `(*MiningStats).IncrementHashes`; `now` is the reading of
`time.Now()`. -/
def MiningStats.IncrementHashes (ms : MiningStats) (count : Nat) (now : Int) : MiningStats :=
  { ms with HashesTried := (ms.HashesTried + count) % u64, LastUpdate := now }

/-- Go `(*MiningStats).GetHashes`. -/
def MiningStats.GetHashes (ms : MiningStats) : Nat := ms.HashesTried

/-- Go `(*MiningStats).IncrementBlocks`. -/
def MiningStats.IncrementBlocks (ms : MiningStats) : MiningStats :=
  { ms with BlocksFound := (ms.BlocksFound + 1) % u64 }

/-- Go `(*MiningStats).UpdateBestHash`. -/
def MiningStats.UpdateBestHash (ms : MiningStats) (hash : Nat) : MiningStats :=
  if hash < ms.BestHash ∨ ms.BestHash = 0 then
    let attempts := ms.ClosestAttempts ++ [hash]
    { ms with
      BestHash := hash
      ClosestAttempts := if attempts.length > 10 then attempts.drop 1 else attempts }
  else ms

/-- Go `(*MiningStats).GetDetailedStats`; `now` is the reading of the clock
taken by `time.Since`. Returns hashes tried, blocks found, elapsed time,
hash rate and best hash. -/
def MiningStats.GetDetailedStats (rnd : ℚ → F64) (ms : MiningStats) (now : Int) :
    Nat × Nat × Int × F64 × Nat :=
  let elapsed := timeSub now ms.StartTime
  let hashRate := F64.div rnd (F64.ofNat ms.HashesTried) (durationSeconds rnd elapsed)
  (ms.HashesTried, ms.BlocksFound, elapsed, hashRate, ms.BestHash)

/-- State of a stats record after a sequence of `UpdateBestHash` calls on the
zero value. -/
def bestHashRun (calls : List Nat) : MiningStats :=
  calls.foldl MiningStats.UpdateBestHash MiningStats.fresh

/-! ## The mining loop -/

/-- Go struct `GPUMiner`. `Target` is a `*big.Int` and may be nil. -/
structure GPUMiner where
  Target : Option Int
  Stats : MiningStats
  Running : Bool
  Debug : Bool
  ThreadsPerRun : Nat

/-- Go `NewGPUMiner`. -/
def NewGPUMiner (debug : Bool) : GPUMiner :=
  { Target := none, Stats := MiningStats.fresh, Running := false, Debug := debug,
    ThreadsPerRun := 1024 * 256 }

/-- Arguments of one call of `cuda_mine_wrapper`: the header bytes, the
first nonce, the target word and the batch width. -/
structure DeviceCall where
  header : List Nat
  nonceStart : Nat
  target : Nat
  threads : Nat
deriving DecidableEq, Repr

/-- Outcome of one call of `cuda_mine_wrapper`: the returned status and the
word left in `result`. -/
structure DeviceReply where
  status : Int
  result : Nat

/-- What surrounds a mining session: the device (its reply to the k-th
invocation, counted from 0), the run flag (its value at the k-th test of the
loop condition) and the clock (the k-th reading of `time.Now()`, in
nanoseconds since the zero `time.Time`). -/
structure Env where
  device : Nat → DeviceCall → DeviceReply
  running : Nat → Bool
  now : Nat → Int

/-- Variables of `GPUMine` at the head of the loop, with the trace of device
invocations made so far (oldest first) and the number of clock readings. -/
structure LoopState where
  header : BlockHeader
  nonce : Nat
  roundCount : Nat
  stats : MiningStats
  calls : List DeviceCall
  clockReads : Nat

/-- Return value of `GPUMine` (`nil` is `none`) and the state it leaves. -/
structure MineResult where
  header : Option BlockHeader
  err : Option String
  final : LoopState

/-- Error returned when the device reports a nonzero status. -/
def cudaError (status : Int) : String := "CUDA Mining Fehler: " ++ toString status

/-- Error returned when the run flag is found cleared. -/
def stoppedError : String := "GPU Mining gestoppt"

/-- Arguments that one iteration hands to the device. -/
def dispatchCall (gm : GPUMiner) (st : LoopState) : DeviceCall :=
  let headerBytes := st.header.Serialize
  let target := 0x0000FFFF
  { header := headerBytes, nonceStart := st.nonce, target := target,
    threads := gm.ThreadsPerRun }

/-- One execution of the body of the `for gm.IsRunning()` loop of `GPUMine`.
The second component is `some` return value when the body returns from
`GPUMine`, and `none` when control goes back to the loop condition. -/
def loopBody (env : Env) (gm : GPUMiner) (st : LoopState) :
    LoopState × Option (Option BlockHeader × Option String) :=
  let call := dispatchCall gm st
  let reply := env.device st.roundCount call
  let st := { st with roundCount := st.roundCount + 1, calls := st.calls ++ [call] }
  if reply.status ≠ 0 then
    (st, some (none, some (cudaError reply.status)))
  else
    let st := { st with
      stats := st.stats.IncrementHashes gm.ThreadsPerRun (env.now st.clockReads)
      clockReads := st.clockReads + 1 }
    let result := reply.result % u32
    if result ≠ 0 then
      let header := { st.header with Nonce := result }
      ({ st with header := header, stats := st.stats.IncrementBlocks },
        some (some header, none))
    else
      let nonce := (st.nonce + gm.ThreadsPerRun) % u32
      if nonce < gm.ThreadsPerRun then
        ({ st with
            header := { st.header with
              Timestamp := toUint32 (unixSeconds (env.now st.clockReads)) }
            nonce := 0
            clockReads := st.clockReads + 1 }, none)
      else
        ({ st with nonce := nonce }, none)

/-- The `for gm.IsRunning()` loop of `GPUMine`, run for at most `fuel`
tests of the loop condition; `none` when the fuel runs out first. -/
def GPUMineLoop (env : Env) (gm : GPUMiner) : Nat → LoopState → Option MineResult
  | 0, _ => none
  | fuel + 1, st =>
    if env.running st.roundCount then
      match loopBody env gm st with
      | (st, none) => GPUMineLoop env gm fuel st
      | (st, some (header, err)) => some { header := header, err := err, final := st }
    else
      some { header := none, err := some stoppedError, final := st }

/-- Loop state on entry to the loop of `GPUMine`: the start time has been
taken from the clock and the nonce cursor is zero. -/
def initialState (env : Env) (gm : GPUMiner) (header : BlockHeader) : LoopState :=
  { header := header, nonce := 0, roundCount := 0,
    stats := { gm.Stats with StartTime := env.now 0 },
    calls := [], clockReads := 1 }

/-- Go `(*GPUMiner).GPUMine`, bounded by `fuel` loop tests. -/
def GPUMine (env : Env) (gm : GPUMiner) (header : BlockHeader) (fuel : Nat) :
    Option MineResult :=
  GPUMineLoop env gm fuel (initialState env gm header)

/-- State left by one execution of the loop body. -/
def bodyState (env : Env) (gm : GPUMiner) (st : LoopState) : LoopState :=
  (loopBody env gm st).1

/-- State after `n` consecutive executions of the loop body. -/
def stateAfter (env : Env) (gm : GPUMiner) : Nat → LoopState → LoopState
  | 0, st => st
  | n + 1, st => stateAfter env gm n (bodyState env gm st)

/-- Loop state of the session `GPUMine env gm header` after `k` executions
of the loop body. -/
def stateAt (env : Env) (gm : GPUMiner) (header : BlockHeader) (k : Nat) : LoopState :=
  stateAfter env gm k (initialState env gm header)

/-- Reply of the device to the call made on batch `k + 1` of the session
`GPUMine env gm header`. -/
def replyAt (env : Env) (gm : GPUMiner) (header : BlockHeader) (k : Nat) : DeviceReply :=
  env.device (stateAt env gm header k).roundCount (dispatchCall gm (stateAt env gm header k))

/-! ## Concrete inputs used to instantiate the statements -/

/-- A well-formed header. -/
def sampleHeader : BlockHeader :=
  { Version := 1, PrevBlockHash := List.replicate 32 0, MerkleRoot := List.replicate 32 171,
    Timestamp := 1700000000, Bits := 0x1d00ffff, Nonce := 0 }

/-- A device stub that succeeds on every batch and reports the word `r` on
batch `n + 1` (invocation `n`) and no solution on the others; the run flag
stays set and the clock advances one second per reading. -/
def stubEnv (n r : Nat) : Env :=
  { device := fun k _ => if k = n then { status := 0, result := r }
      else { status := 0, result := 0 }
    running := fun _ => true
    now := fun k => 63000000000000000000 + 1000000000 * (k : Int) }

/-- A device stub that reports no solution on the first `n` batches and
returns the status `s` on batch `n + 1`. -/
def failingEnv (n : Nat) (s : Int) : Env :=
  { device := fun k _ => if k = n then { status := s, result := 0 }
      else { status := 0, result := 0 }
    running := fun _ => true
    now := fun k => 63000000000000000000 + 1000000000 * (k : Int) }

/-- Rounding that keeps the exact value, which is what binary64 rounding
does on every representable value. -/
def exactRnd (q : ℚ) : F64 := if q = 0 then F64.zero false else F64.fin q

/-- A stats record with 262144 hashes counted and the start time 5. -/
def statsAtStart : MiningStats :=
  { MiningStats.fresh with HashesTried := 262144, StartTime := 5 }

/-- Loop state of a default miner after `2^46 - 1` batches without a
solution. -/
def lateState : LoopState :=
  stateAfter (stubEnv 70368744177664 7) (NewGPUMiner false) 70368744177663
    (initialState (stubEnv 70368744177664 7) (NewGPUMiner false) sampleHeader)

/-- A loop state near the end of the nonce space. -/
def wrapState : LoopState :=
  { header := sampleHeader, nonce := 4294900000, roundCount := 16383,
    stats := { MiningStats.fresh with HashesTried := 4294705152 },
    calls := [], clockReads := 16384 }

/-- A miner whose target is the expansion of `0x1d00ffff`. -/
def minerA : GPUMiner := { NewGPUMiner false with Target := some (BitsToTarget 0x1d00ffff) }

/-- A miner whose target is the expansion of `0x1c00ffff`. -/
def minerB : GPUMiner := { NewGPUMiner false with Target := some (BitsToTarget 0x1c00ffff) }

/-! # Theorems -/

/-! ## Header serialization -/

theorem putUint32LE_length (v : Nat) : (putUint32LE v).length = 4 := rfl

theorem leValue_putUint32LE (v : Nat) (hv : v < u32) : leValue (putUint32LE v) = v := by
  simp only [putUint32LE, leValue, u32] at *
  omega

theorem bytesAt_here (a b : List Nat) (len : Nat) (h : a.length = len) :
    bytesAt (a ++ b) 0 len = a := by
  subst h
  simp [bytesAt]

theorem bytesAt_skip (a b : List Nat) (off len : Nat) (h : a.length ≤ off) :
    bytesAt (a ++ b) off len = bytesAt b (off - a.length) len := by
  simp [bytesAt, List.drop_append_eq_append_drop, List.drop_of_length_le h]

theorem bytesAt_all (a : List Nat) (len : Nat) (h : a.length = len) :
    bytesAt a 0 len = a := by
  subst h
  simp [bytesAt]

theorem serialize_fields (h : BlockHeader) (hp : h.PrevBlockHash.length = 32)
    (hm : h.MerkleRoot.length = 32) :
    bytesAt h.Serialize 0 4 = putUint32LE h.Version ∧
    bytesAt h.Serialize 4 32 = h.PrevBlockHash ∧
    bytesAt h.Serialize 36 32 = h.MerkleRoot ∧
    bytesAt h.Serialize 68 4 = putUint32LE h.Timestamp ∧
    bytesAt h.Serialize 72 4 = putUint32LE h.Bits ∧
    bytesAt h.Serialize 76 4 = putUint32LE h.Nonce := by
  simp only [BlockHeader.Serialize, List.append_assoc]
  refine ⟨?_, ?_, ?_, ?_, ?_, ?_⟩
  · exact bytesAt_here _ _ 4 rfl
  · rw [bytesAt_skip _ _ 4 32 (by simp [putUint32LE_length])]
    simpa [putUint32LE_length] using bytesAt_here _ _ 32 hp
  · rw [bytesAt_skip _ _ 36 32 (by simp [putUint32LE_length]),
      bytesAt_skip _ _ _ 32 (by simp [putUint32LE_length, hp])]
    simpa [putUint32LE_length, hp] using bytesAt_here _ _ 32 hm
  · rw [bytesAt_skip _ _ 68 4 (by simp [putUint32LE_length]),
      bytesAt_skip _ _ _ 4 (by simp [putUint32LE_length, hp]),
      bytesAt_skip _ _ _ 4 (by simp [putUint32LE_length, hp, hm])]
    simpa [putUint32LE_length, hp, hm] using bytesAt_here _ _ 4 (putUint32LE_length _)
  · rw [bytesAt_skip _ _ 72 4 (by simp [putUint32LE_length]),
      bytesAt_skip _ _ _ 4 (by simp [putUint32LE_length, hp]),
      bytesAt_skip _ _ _ 4 (by simp [putUint32LE_length, hp, hm]),
      bytesAt_skip _ _ _ 4 (by simp [putUint32LE_length, hp, hm])]
    simpa [putUint32LE_length, hp, hm] using bytesAt_here _ _ 4 (putUint32LE_length _)
  · rw [bytesAt_skip _ _ 76 4 (by simp [putUint32LE_length]),
      bytesAt_skip _ _ _ 4 (by simp [putUint32LE_length, hp]),
      bytesAt_skip _ _ _ 4 (by simp [putUint32LE_length, hp, hm]),
      bytesAt_skip _ _ _ 4 (by simp [putUint32LE_length, hp, hm]),
      bytesAt_skip _ _ _ 4 (by simp [putUint32LE_length, hp, hm])]
    simpa [putUint32LE_length, hp, hm] using bytesAt_all _ 4 (putUint32LE_length _)

theorem decode_serialize (h : BlockHeader) (hw : h.WellFormed) :
    decodeHeader h.Serialize = h := by
  obtain ⟨hv, ⟨hp, _⟩, ⟨hm, _⟩, ht, hb, hn⟩ := hw
  obtain ⟨f1, f2, f3, f4, f5, f6⟩ := serialize_fields h hp hm
  simp only [decodeHeader, f1, f2, f3, f4, f5, f6, leValue_putUint32LE _ hv,
    leValue_putUint32LE _ ht, leValue_putUint32LE _ hb, leValue_putUint32LE _ hn]

theorem putUint32LE_bytes (v : Nat) : ∀ b ∈ putUint32LE v, b < 256 := by
  intro b hb
  simp only [putUint32LE, List.mem_cons, List.mem_singleton, List.not_mem_nil, or_false] at hb
  rcases hb with hb | hb | hb | hb <;> rw [hb] <;> exact Nat.mod_lt _ (by decide)

theorem serialize_bytes (h : BlockHeader) (hp : ∀ b ∈ h.PrevBlockHash, b < 256)
    (hm : ∀ b ∈ h.MerkleRoot, b < 256) : ∀ b ∈ h.Serialize, b < 256 := by
  intro b hb
  simp only [BlockHeader.Serialize, List.mem_append] at hb
  rcases hb with ((((hb | hb) | hb) | hb) | hb) | hb
  · exact putUint32LE_bytes _ b hb
  · exact hp b hb
  · exact hm b hb
  · exact putUint32LE_bytes _ b hb
  · exact putUint32LE_bytes _ b hb
  · exact putUint32LE_bytes _ b hb

/-- C1. For every header that respects the field widths of the Go struct,
`Serialize` yields exactly 80 cells, each of them a byte (below 256). The
bytes at offsets 0..3, 68..71, 72..75 and 76..79 are the little-endian bytes
of Version, Timestamp, Bits and Nonce (least significant byte first), the
bytes at 4..35 and 36..67 are PrevBlockHash and MerkleRoot. Reading the
fields back at these offsets recovers the header, and `Serialize` is
injective. -/
theorem Serialize_roundtrip (h : BlockHeader) (hw : h.WellFormed) :
    h.Serialize.length = 80 ∧
    (∀ b ∈ h.Serialize, b < 256) ∧
    (bytesAt h.Serialize 0 4 =
       [h.Version % 256, h.Version / 256 % 256, h.Version / 65536 % 256,
        h.Version / 16777216 % 256] ∧
     bytesAt h.Serialize 4 32 = h.PrevBlockHash ∧
     bytesAt h.Serialize 36 32 = h.MerkleRoot ∧
     bytesAt h.Serialize 68 4 =
       [h.Timestamp % 256, h.Timestamp / 256 % 256, h.Timestamp / 65536 % 256,
        h.Timestamp / 16777216 % 256] ∧
     bytesAt h.Serialize 72 4 =
       [h.Bits % 256, h.Bits / 256 % 256, h.Bits / 65536 % 256, h.Bits / 16777216 % 256] ∧
     bytesAt h.Serialize 76 4 =
       [h.Nonce % 256, h.Nonce / 256 % 256, h.Nonce / 65536 % 256,
        h.Nonce / 16777216 % 256]) ∧
    (h.Version = h.Serialize.getD 0 0 + 256 * h.Serialize.getD 1 0 +
       65536 * h.Serialize.getD 2 0 + 16777216 * h.Serialize.getD 3 0 ∧
     h.Timestamp = h.Serialize.getD 68 0 + 256 * h.Serialize.getD 69 0 +
       65536 * h.Serialize.getD 70 0 + 16777216 * h.Serialize.getD 71 0 ∧
     h.Bits = h.Serialize.getD 72 0 + 256 * h.Serialize.getD 73 0 +
       65536 * h.Serialize.getD 74 0 + 16777216 * h.Serialize.getD 75 0 ∧
     h.Nonce = h.Serialize.getD 76 0 + 256 * h.Serialize.getD 77 0 +
       65536 * h.Serialize.getD 78 0 + 16777216 * h.Serialize.getD 79 0) ∧
    decodeHeader h.Serialize = h ∧
    ∀ h2 : BlockHeader, h2.WellFormed → h.Serialize = h2.Serialize → h = h2 := by
  have hfields := serialize_fields h hw.2.1.1 hw.2.2.1.1
  refine ⟨?_, serialize_bytes h hw.2.1.2 hw.2.2.1.2, hfields, ?_, decode_serialize h hw, ?_⟩
  · simp [BlockHeader.Serialize, putUint32LE_length, hw.2.1.1, hw.2.2.1.1]
  · obtain ⟨hv, ⟨hp, -⟩, ⟨hm, -⟩, ht, hb, hn⟩ := hw
    obtain ⟨p, hpe⟩ : ∃ p, h.PrevBlockHash = p := ⟨_, rfl⟩
    obtain ⟨m, hme⟩ : ∃ m, h.MerkleRoot = m := ⟨_, rfl⟩
    rw [hpe] at hp
    rw [hme] at hm
    have hd : ∀ (a b c : List Nat) (k : Nat), a.length = 4 → b.length = 32 → c.length = 32 →
        ∀ (d e f : List Nat), d.length = 4 → e.length = 4 →
        (a ++ b ++ c ++ d ++ e ++ f).getD k 0 =
          if k < 4 then a.getD k 0
          else if k < 36 then b.getD (k - 4) 0
          else if k < 68 then c.getD (k - 36) 0
          else if k < 72 then d.getD (k - 68) 0
          else if k < 76 then e.getD (k - 72) 0
          else f.getD (k - 76) 0 := by
      intro a b c k ha hb2 hc d e f hd2 he
      simp only [List.getD_eq_getElem?_getD, List.getElem?_append, List.length_append,
        ha, hb2, hc, hd2, he]
      split_ifs <;> first | rfl | omega
    simp only [BlockHeader.Serialize, hpe, hme,
      hd _ p m _ (putUint32LE_length _) hp hm _ _ _ (putUint32LE_length _)
        (putUint32LE_length _)]
    simp only [u32] at hv ht hb hn
    simp [putUint32LE]
    refine ⟨?_, ?_, ?_, ?_⟩ <;> omega
  · intro h2 hw2 heq
    rw [← decode_serialize h hw, ← decode_serialize h2 hw2, heq]

/-- C1 at a concrete header: 80 bytes, and the timestamp 1700000000 =
0x6553F100 and the bits 0x1d00ffff appear least significant byte first. -/
theorem Serialize_roundtrip_witness :
    sampleHeader.WellFormed ∧ sampleHeader.Serialize.length = 80 ∧
    (∀ b ∈ sampleHeader.Serialize, b < 256) ∧
    bytesAt sampleHeader.Serialize 0 4 = [1, 0, 0, 0] ∧
    bytesAt sampleHeader.Serialize 68 4 = [0, 241, 83, 101] ∧
    bytesAt sampleHeader.Serialize 72 4 = [255, 255, 0, 29] ∧
    decodeHeader sampleHeader.Serialize = sampleHeader :=
  ⟨by decide, (Serialize_roundtrip sampleHeader (by decide)).1,
    (Serialize_roundtrip sampleHeader (by decide)).2.1,
    (Serialize_roundtrip sampleHeader (by decide)).2.2.1.1,
    (Serialize_roundtrip sampleHeader (by decide)).2.2.1.2.2.2.1,
    (Serialize_roundtrip sampleHeader (by decide)).2.2.1.2.2.2.2.1,
    (Serialize_roundtrip sampleHeader (by decide)).2.2.2.2.1⟩

/-! ## Target codec -/

theorem BitsToTarget_of_exponent (bits e : Nat) (he : (bits >>> 24) % u8 = e) :
    BitsToTarget bits =
      if e ≤ 3 then Int.ofNat ((bits &&& 0x00ffffff) >>> (u8mul 8 (u8sub 3 e)))
      else bigLsh (Int.ofNat (bits &&& 0x00ffffff)) (u8mul 8 (u8sub e 3)) := by
  subst he
  rfl

theorem exponent_lt (bits : Nat) (hb : bits < u32) : bits >>> 24 < 256 := by
  rw [Nat.shiftRight_eq_div_pow]
  simp only [u32] at hb
  omega

/-- C9. For every 32-bit `bits` whose top byte is at most 3, `BitsToTarget`
is the mantissa shifted right by `8 * (3 - exponent)` bits, that is the floor
of mantissa / 2^(8*(3-exponent)); it is not negative and not above the
mantissa; and `BitsToTarget 0x03001234 = 0x1234`. -/
theorem BitsToTarget_small_exponent (bits : Nat) (hb : bits < u32) (he : (bits >>> 24) ≤ 3) :
    BitsToTarget bits = (((bits &&& 0x00ffffff) >>> (8 * (3 - (bits >>> 24))) : Nat) : Int) ∧
    BitsToTarget bits = (((bits &&& 0x00ffffff) / 2 ^ (8 * (3 - (bits >>> 24))) : Nat) : Int) ∧
    BitsToTarget bits = ((bits &&& 0x00ffffff : Nat) : Int) / 2 ^ (8 * (3 - (bits >>> 24))) ∧
    0 ≤ BitsToTarget bits ∧
    BitsToTarget bits ≤ ((bits &&& 0x00ffffff : Nat) : Int) ∧
    BitsToTarget 0x03001234 = 0x1234 := by
  have hmod : (bits >>> 24) % u8 = bits >>> 24 := Nat.mod_eq_of_lt (exponent_lt bits hb)
  have hshift : u8mul 8 (u8sub 3 (bits >>> 24)) = 8 * (3 - (bits >>> 24)) := by
    simp only [u8mul, u8sub, u8]
    omega
  have key : BitsToTarget bits =
      (((bits &&& 0x00ffffff) >>> (8 * (3 - (bits >>> 24))) : Nat) : Int) := by
    rw [BitsToTarget_of_exponent bits _ hmod, if_pos he, hshift]
    rfl
  refine ⟨key, ?_, ?_, ?_, ?_, by rfl⟩
  · rw [key, Nat.shiftRight_eq_div_pow]
  · rw [key, Nat.shiftRight_eq_div_pow]
    push_cast
    rfl
  · rw [key]
    exact Int.ofNat_nonneg _
  · rw [key, Nat.shiftRight_eq_div_pow]
    exact_mod_cast Nat.div_le_self _ _

/-- C9 at `bits = 0x03001234` and at `bits = 0x01123456` (a shift by 16). -/
theorem BitsToTarget_small_exponent_witness :
    BitsToTarget 0x03001234 = ((0x1234 : Nat) : Int) ∧
    BitsToTarget 0x01123456 = (((0x123456 : Nat) / 2 ^ 16 : Nat) : Int) :=
  ⟨(BitsToTarget_small_exponent 0x03001234 (by decide) (by decide)).1,
   (BitsToTarget_small_exponent 0x01123456 (by decide) (by decide)).2.1⟩

/-- For a top byte between 4 and 34 the shift count `8 * (exponent - 3)` fits
a `uint8` and `BitsToTarget` is the mantissa times `2^(8*(exponent-3))`. -/
theorem BitsToTarget_mid_exponent (bits : Nat) (hb : bits < u32) (h3 : 3 < (bits >>> 24))
    (h34 : (bits >>> 24) ≤ 34) :
    BitsToTarget bits = ((bits &&& 0x00ffffff : Nat) : Int) * 2 ^ (8 * ((bits >>> 24) - 3)) := by
  have hmod : (bits >>> 24) % u8 = bits >>> 24 := Nat.mod_eq_of_lt (exponent_lt bits hb)
  have hshift : u8mul 8 (u8sub (bits >>> 24) 3) = 8 * ((bits >>> 24) - 3) := by
    simp only [u8mul, u8sub, u8]
    omega
  rw [BitsToTarget_of_exponent bits _ hmod, if_neg (by omega), hshift]
  rfl

/-- For every top byte above 3 the shift count is `8 * (exponent - 3)`
reduced modulo 256, the width of the `uint8` in which it is computed. -/
theorem BitsToTarget_large_exponent (bits : Nat) (hb : bits < u32) (h3 : 3 < (bits >>> 24)) :
    BitsToTarget bits =
      ((bits &&& 0x00ffffff : Nat) : Int) * 2 ^ ((8 * ((bits >>> 24) - 3)) % 256) := by
  have hlt := exponent_lt bits hb
  have hmod : (bits >>> 24) % u8 = bits >>> 24 := Nat.mod_eq_of_lt hlt
  have hshift : u8mul 8 (u8sub (bits >>> 24) 3) = (8 * ((bits >>> 24) - 3)) % 256 := by
    simp only [u8mul, u8sub, u8]
    omega
  rw [BitsToTarget_of_exponent bits _ hmod, if_neg (by omega), hshift]
  rfl

/-- C2 at the reference value and at a failing input. `BitsToTarget
0x1d00ffff` is `0xffff * 2^208`. For `bits = 0x23000001` the top byte is 35
and the mantissa is 1, so the statement asks for `1 * 2^(8*(35-3)) = 2^256`;
the shift count `8 * 32` computed in `uint8` is 0 and the function returns 1. -/
theorem BitsToTarget_exponent_35 :
    BitsToTarget 0x1d00ffff = 0xffff * 2 ^ 208 ∧
    0x23000001 < u32 ∧ 0x23000001 >>> 24 = 35 ∧ 0x23000001 &&& 0x00ffffff = 1 ∧
    BitsToTarget 0x23000001 = 1 ∧
    BitsToTarget 0x23000001 ≠ ((0x23000001 &&& 0x00ffffff : Nat) : Int) *
      2 ^ (8 * ((0x23000001 >>> 24) - 3)) := by
  refine ⟨by rfl, by decide, by decide, by decide, by rfl, ?_⟩
  have h1 : BitsToTarget 0x23000001 = 1 := by rfl
  have h2 : (0x23000001 &&& 0x00ffffff : Nat) = 1 := by decide
  have h3 : (0x23000001 >>> 24 : Nat) = 35 := by decide
  rw [h1, h2, h3]
  norm_num

/-! ## Best hash and its history -/

theorem bestHashRun_snoc (calls : List Nat) (v : Nat) :
    bestHashRun (calls ++ [v]) = (bestHashRun calls).UpdateBestHash v := by
  simp [bestHashRun, List.foldl_append]

theorem UpdateBestHash_BestHash (ms : MiningStats) (h : Nat) :
    (ms.UpdateBestHash h).BestHash =
      if h < ms.BestHash ∨ ms.BestHash = 0 then h else ms.BestHash := by
  unfold MiningStats.UpdateBestHash
  split <;> rfl

theorem UpdateBestHash_attempts (ms : MiningStats) (h : Nat) :
    (ms.UpdateBestHash h).ClosestAttempts =
      if h < ms.BestHash ∨ ms.BestHash = 0 then
        (if (ms.ClosestAttempts ++ [h]).length > 10 then (ms.ClosestAttempts ++ [h]).drop 1
          else ms.ClosestAttempts ++ [h])
      else ms.ClosestAttempts := by
  unfold MiningStats.UpdateBestHash
  split <;> rfl

theorem UpdateBestHash_attempts_length (ms : MiningStats) (h : Nat)
    (hlen : ms.ClosestAttempts.length ≤ 10) :
    (ms.UpdateBestHash h).ClosestAttempts.length ≤ 10 := by
  rw [UpdateBestHash_attempts]
  split
  · split
    · simp only [List.length_drop, List.length_append, List.length_singleton]
      omega
    · omega
  · exact hlen

theorem bestHashRun_attempts_length (calls : List Nat) :
    (bestHashRun calls).ClosestAttempts.length ≤ 10 := by
  induction calls using List.reverseRecOn with
  | nil => simp [bestHashRun, MiningStats.fresh]
  | append_singleton l v ih =>
    rw [bestHashRun_snoc]
    exact UpdateBestHash_attempts_length _ _ ih

theorem bestHashRun_min_of_nonzero (l : List Nat) (hl : l ≠ []) (hnz : ∀ v ∈ l, v ≠ 0) :
    (bestHashRun l).BestHash ∈ l ∧ ∀ v ∈ l, (bestHashRun l).BestHash ≤ v := by
  induction l using List.reverseRecOn with
  | nil => exact absurd rfl hl
  | append_singleton l x ih =>
    rw [bestHashRun_snoc, UpdateBestHash_BestHash]
    by_cases hnil : l = []
    · subst hnil
      simp [bestHashRun, MiningStats.fresh]
    · have hnz2 : ∀ v ∈ l, v ≠ 0 := fun v hv => hnz v (List.mem_append_left _ hv)
      obtain ⟨hmem, hle⟩ := ih hnil hnz2
      have hb0 : (bestHashRun l).BestHash ≠ 0 := hnz2 _ hmem
      by_cases hx : x < (bestHashRun l).BestHash
      · rw [if_pos (Or.inl hx)]
        refine ⟨by simp, ?_⟩
        intro v hv
        rcases List.mem_append.1 hv with hv | hv
        · exact le_trans (le_of_lt hx) (hle v hv)
        · simp at hv
          omega
      · rw [if_neg (by tauto)]
        refine ⟨List.mem_append_left _ hmem, ?_⟩
        intro v hv
        rcases List.mem_append.1 hv with hv | hv
        · exact hle v hv
        · simp at hv
          omega

theorem bestHashRun_step_le (l : List Nat) (x : Nat) (hl : l ≠ []) (hnz : ∀ v ∈ l, v ≠ 0) :
    (bestHashRun (l ++ [x])).BestHash ≤ (bestHashRun l).BestHash := by
  have hb0 : (bestHashRun l).BestHash ≠ 0 := hnz _ (bestHashRun_min_of_nonzero l hl hnz).1
  rw [bestHashRun_snoc, UpdateBestHash_BestHash]
  split
  · rename_i hc
    rcases hc with hc | hc
    · exact le_of_lt hc
    · exact absurd hc hb0
  · exact le_refl _

theorem bestHashRun_last_min (init : List Nat) (last : Nat) (hnz : ∀ v ∈ init, v ≠ 0) :
    (bestHashRun (init ++ [last])).BestHash ∈ init ++ [last] ∧
    ∀ v ∈ init ++ [last], (bestHashRun (init ++ [last])).BestHash ≤ v := by
  by_cases hnil : init = []
  · subst hnil
    simp [bestHashRun, MiningStats.fresh, MiningStats.UpdateBestHash]
  · obtain ⟨hmem, hle⟩ := bestHashRun_min_of_nonzero init hnil hnz
    have hb0 : (bestHashRun init).BestHash ≠ 0 := hnz _ hmem
    rw [bestHashRun_snoc, UpdateBestHash_BestHash]
    by_cases hx : last < (bestHashRun init).BestHash
    · rw [if_pos (Or.inl hx)]
      refine ⟨by simp, ?_⟩
      intro v hv
      rcases List.mem_append.1 hv with hv | hv
      · exact le_trans (le_of_lt hx) (hle v hv)
      · simp at hv
        omega
    · rw [if_neg (by tauto)]
      refine ⟨List.mem_append_left _ hmem, ?_⟩
      intro v hv
      rcases List.mem_append.1 hv with hv | hv
      · exact hle v hv
      · simp at hv
        omega

/-- C5, as the code has it. For every sequence of `UpdateBestHash` calls on a
fresh record in which no call before the last one passes zero, the stored
`BestHash` after the last call is the minimum of all values passed in (it is
one of them and is below or equal to each), and, when there was an earlier
call, it is not above the `BestHash` stored before the last call. -/
theorem BestHash_is_minimum (init : List Nat) (last : Nat) (hnz : ∀ v ∈ init, v ≠ 0) :
    (bestHashRun (init ++ [last])).BestHash ∈ init ++ [last] ∧
    (∀ v ∈ init ++ [last], (bestHashRun (init ++ [last])).BestHash ≤ v) ∧
    (init ≠ [] → (bestHashRun (init ++ [last])).BestHash ≤ (bestHashRun init).BestHash) :=
  ⟨(bestHashRun_last_min init last hnz).1, (bestHashRun_last_min init last hnz).2,
    fun hne => bestHashRun_step_le init last hne hnz⟩

/-- C5 on the calls 9, 4, 6. -/
theorem BestHash_is_minimum_witness :
    (∀ v ∈ [9, 4], v ≠ 0) ∧
    (bestHashRun ([9, 4] ++ [6])).BestHash ∈ [9, 4] ++ [6] ∧
    (∀ v ∈ [9, 4] ++ [6], (bestHashRun ([9, 4] ++ [6])).BestHash ≤ v) ∧
    (bestHashRun ([9, 4] ++ [6])).BestHash ≤ (bestHashRun [9, 4]).BestHash :=
  ⟨by decide, (BestHash_is_minimum [9, 4] 6 (by decide)).1,
    (BestHash_is_minimum [9, 4] 6 (by decide)).2.1,
    (BestHash_is_minimum [9, 4] 6 (by decide)).2.2 (by decide)⟩

/-- C5 fails when zero is passed before the last call. After the calls
3, 0, 7 the stored `BestHash` is 7, which is not the minimum 0 of the values
passed in, and it went up from 0 to 7 at the last call. -/
theorem BestHash_zero_sentinel :
    (bestHashRun [3]).BestHash = 3 ∧ (bestHashRun [3, 0]).BestHash = 0 ∧
    (bestHashRun [3, 0, 7]).BestHash = 7 ∧
    ¬ (∀ v ∈ [3, 0, 7], (bestHashRun [3, 0, 7]).BestHash ≤ v) ∧
    ¬ ((bestHashRun [3, 0, 7]).BestHash ≤ (bestHashRun [3, 0]).BestHash) := by
  decide

/-- C8. After every sequence of `UpdateBestHash` calls on a fresh record the
history holds at most 10 entries. A rejected candidate leaves the record, and
so the history, unchanged. A candidate accepted while the history holds 10
entries drops the first entry, keeps the other 9 in order and becomes the
last; accepted below 10 entries it is appended. -/
theorem ClosestAttempts_bounded (calls : List Nat) (h : Nat) :
    (bestHashRun calls).ClosestAttempts.length ≤ 10 ∧
    (¬ (h < (bestHashRun calls).BestHash ∨ (bestHashRun calls).BestHash = 0) →
      (bestHashRun calls).UpdateBestHash h = bestHashRun calls) ∧
    ((h < (bestHashRun calls).BestHash ∨ (bestHashRun calls).BestHash = 0) →
      (bestHashRun calls).ClosestAttempts.length = 10 →
      ((bestHashRun calls).UpdateBestHash h).ClosestAttempts =
        (bestHashRun calls).ClosestAttempts.drop 1 ++ [h] ∧
      ((bestHashRun calls).UpdateBestHash h).ClosestAttempts.length = 10) ∧
    ((h < (bestHashRun calls).BestHash ∨ (bestHashRun calls).BestHash = 0) →
      (bestHashRun calls).ClosestAttempts.length < 10 →
      ((bestHashRun calls).UpdateBestHash h).ClosestAttempts =
        (bestHashRun calls).ClosestAttempts ++ [h]) := by
  refine ⟨bestHashRun_attempts_length calls, ?_, ?_, ?_⟩
  · intro hrej
    unfold MiningStats.UpdateBestHash
    rw [if_neg hrej]
  · intro hacc hlen
    rw [UpdateBestHash_attempts, if_pos hacc]
    have hgt : (List.length ((bestHashRun calls).ClosestAttempts ++ [h]) > 10) := by
      simp only [List.length_append, List.length_singleton]
      omega
    rw [if_pos hgt]
    have hne : (bestHashRun calls).ClosestAttempts ≠ [] := by
      intro hnil
      rw [hnil] at hlen
      simp at hlen
    obtain ⟨a, t, hat⟩ := List.exists_cons_of_ne_nil hne
    rw [hat] at hlen ⊢
    simp only [List.length_cons] at hlen
    simp only [List.cons_append, List.drop_succ_cons, List.drop_zero, List.length_append,
      List.length_singleton, true_and]
    omega
  · intro hacc hlen
    rw [UpdateBestHash_attempts, if_pos hacc]
    have hgt : ¬ (List.length ((bestHashRun calls).ClosestAttempts ++ [h]) > 10) := by
      simp only [List.length_append, List.length_singleton]
      omega
    rw [if_neg hgt]

/-- C8 on the ten calls 20, 19, ..., 11 followed by the candidates 5
(accepted) and 15 (rejected). -/
theorem ClosestAttempts_bounded_witness :
    (bestHashRun [20, 19, 18, 17, 16, 15, 14, 13, 12, 11]).ClosestAttempts.length = 10 ∧
    ((bestHashRun [20, 19, 18, 17, 16, 15, 14, 13, 12, 11]).UpdateBestHash 5).ClosestAttempts =
      (bestHashRun [20, 19, 18, 17, 16, 15, 14, 13, 12, 11]).ClosestAttempts.drop 1 ++ [5] ∧
    (bestHashRun [20, 19, 18, 17, 16, 15, 14, 13, 12, 11]).UpdateBestHash 15 =
      bestHashRun [20, 19, 18, 17, 16, 15, 14, 13, 12, 11] :=
  ⟨by decide,
    ((ClosestAttempts_bounded [20, 19, 18, 17, 16, 15, 14, 13, 12, 11] 5).2.2.1
      (by decide) (by decide)).1,
    (ClosestAttempts_bounded [20, 19, 18, 17, 16, 15, 14, 13, 12, 11] 15).2.1 (by decide)⟩

/-! ## The mining loop -/

theorem loopBody_calls (env : Env) (gm : GPUMiner) (st : LoopState) :
    (bodyState env gm st).calls = st.calls ++ [dispatchCall gm st] ∧
    (bodyState env gm st).roundCount = st.roundCount + 1 := by
  unfold bodyState loopBody
  simp only
  split
  · exact ⟨rfl, rfl⟩
  · split
    · exact ⟨rfl, rfl⟩
    · split <;> exact ⟨rfl, rfl⟩

theorem loopBody_failed (env : Env) (gm : GPUMiner) (st : LoopState)
    (hs : (env.device st.roundCount (dispatchCall gm st)).status ≠ 0) :
    loopBody env gm st =
      ({ st with roundCount := st.roundCount + 1, calls := st.calls ++ [dispatchCall gm st] },
        some (none, some (cudaError (env.device st.roundCount (dispatchCall gm st)).status))) := by
  unfold loopBody
  simp only
  rw [if_pos hs]

theorem loopBody_solved (env : Env) (gm : GPUMiner) (st : LoopState)
    (hs : (env.device st.roundCount (dispatchCall gm st)).status = 0)
    (hr : (env.device st.roundCount (dispatchCall gm st)).result % u32 ≠ 0) :
    loopBody env gm st =
      ({ st with
          roundCount := st.roundCount + 1
          calls := st.calls ++ [dispatchCall gm st]
          clockReads := st.clockReads + 1
          header := { st.header with
            Nonce := (env.device st.roundCount (dispatchCall gm st)).result % u32 }
          stats := (st.stats.IncrementHashes gm.ThreadsPerRun
            (env.now st.clockReads)).IncrementBlocks },
        some (some { st.header with
            Nonce := (env.device st.roundCount (dispatchCall gm st)).result % u32 }, none)) := by
  unfold loopBody
  simp only
  rw [if_neg (by simpa using hs), if_pos hr]

theorem loopBody_noSolution (env : Env) (gm : GPUMiner) (st : LoopState)
    (hs : (env.device st.roundCount (dispatchCall gm st)).status = 0)
    (hr : (env.device st.roundCount (dispatchCall gm st)).result % u32 = 0) :
    loopBody env gm st = (bodyState env gm st, none) ∧
    (bodyState env gm st).stats =
      st.stats.IncrementHashes gm.ThreadsPerRun (env.now st.clockReads) ∧
    (bodyState env gm st).nonce =
      (if (st.nonce + gm.ThreadsPerRun) % u32 < gm.ThreadsPerRun then 0
        else (st.nonce + gm.ThreadsPerRun) % u32) ∧
    (bodyState env gm st).header =
      (if (st.nonce + gm.ThreadsPerRun) % u32 < gm.ThreadsPerRun then
        { st.header with Timestamp := toUint32 (unixSeconds (env.now (st.clockReads + 1))) }
        else st.header) := by
  unfold bodyState loopBody
  simp only
  rw [if_neg (by simpa using hs), if_neg (by simpa using hr)]
  split <;> exact ⟨rfl, rfl, rfl, rfl⟩

theorem GPUMineLoop_succ (env : Env) (gm : GPUMiner) (fuel : Nat) (st : LoopState) :
    GPUMineLoop env gm (fuel + 1) st =
      if env.running st.roundCount then
        match loopBody env gm st with
        | (st, none) => GPUMineLoop env gm fuel st
        | (st, some (header, err)) => some { header := header, err := err, final := st }
      else some { header := none, err := some stoppedError, final := st } := rfl

theorem GPUMineLoop_return (env : Env) (gm : GPUMiner) (fuel : Nat) (st : LoopState)
    (header : Option BlockHeader) (err : Option String)
    (hrun : env.running st.roundCount = true)
    (hret : (loopBody env gm st).2 = some (header, err)) :
    GPUMineLoop env gm (fuel + 1) st =
      some { header := header, err := err, final := bodyState env gm st } := by
  rw [GPUMineLoop_succ, if_pos hrun]
  unfold bodyState
  rcases hbody : loopBody env gm st with ⟨st2, ret⟩
  rw [hbody] at hret
  simp only at hret
  subst hret
  rfl

theorem header_of_noSolution (env : Env) (gm : GPUMiner) (st : LoopState)
    (hs : (env.device st.roundCount (dispatchCall gm st)).status = 0)
    (hr : (env.device st.roundCount (dispatchCall gm st)).result % u32 = 0) :
    (bodyState env gm st).header.Version = st.header.Version ∧
    (bodyState env gm st).header.PrevBlockHash = st.header.PrevBlockHash ∧
    (bodyState env gm st).header.MerkleRoot = st.header.MerkleRoot ∧
    (bodyState env gm st).header.Bits = st.header.Bits ∧
    (bodyState env gm st).header.Nonce = st.header.Nonce := by
  rw [(loopBody_noSolution env gm st hs hr).2.2.2]
  split <;> exact ⟨rfl, rfl, rfl, rfl, rfl⟩

/-- While the run flag stays set and the device reports success without a
solution, `n` loop tests lead to the state after `n` executions of the body;
the counters and the header evolve as stated. -/
theorem stateAfter_noSolution (env : Env) (gm : GPUMiner) :
    ∀ (n : Nat) (st : LoopState), st.stats.HashesTried < u64 →
    (∀ k, k < n → env.running (stateAfter env gm k st).roundCount = true ∧
      (env.device (stateAfter env gm k st).roundCount
        (dispatchCall gm (stateAfter env gm k st))).status = 0 ∧
      (env.device (stateAfter env gm k st).roundCount
        (dispatchCall gm (stateAfter env gm k st))).result % u32 = 0) →
    (∀ fuel, GPUMineLoop env gm (n + fuel) st =
      GPUMineLoop env gm fuel (stateAfter env gm n st)) ∧
    (stateAfter env gm n st).roundCount = st.roundCount + n ∧
    (stateAfter env gm n st).stats.HashesTried =
      (st.stats.HashesTried + n * gm.ThreadsPerRun) % u64 ∧
    (stateAfter env gm n st).stats.BlocksFound = st.stats.BlocksFound ∧
    (stateAfter env gm n st).calls.length = st.calls.length + n ∧
    (stateAfter env gm n st).header.Version = st.header.Version ∧
    (stateAfter env gm n st).header.PrevBlockHash = st.header.PrevBlockHash ∧
    (stateAfter env gm n st).header.MerkleRoot = st.header.MerkleRoot ∧
    (stateAfter env gm n st).header.Bits = st.header.Bits ∧
    (stateAfter env gm n st).header.Nonce = st.header.Nonce := by
  intro n
  induction n with
  | zero =>
    intro st hH _
    refine ⟨fun fuel => by simp [stateAfter], rfl, ?_, rfl, rfl, rfl, rfl, rfl, rfl, rfl⟩
    simp only [stateAfter, Nat.zero_mul, Nat.add_zero]
    exact (Nat.mod_eq_of_lt hH).symm
  | succ n ih =>
    intro st _ hyp
    obtain ⟨hrun, hs, hr⟩ := hyp 0 (Nat.succ_pos n)
    simp only [stateAfter] at hrun hs hr
    obtain ⟨hbody, hstats, -, -⟩ := loopBody_noSolution env gm st hs hr
    obtain ⟨hcalls, hround⟩ := loopBody_calls env gm st
    obtain ⟨hv, hp, hm, hb, hn⟩ := header_of_noSolution env gm st hs hr
    have hyp2 : ∀ k, k < n →
        env.running (stateAfter env gm k (bodyState env gm st)).roundCount = true ∧
        (env.device (stateAfter env gm k (bodyState env gm st)).roundCount
          (dispatchCall gm (stateAfter env gm k (bodyState env gm st)))).status = 0 ∧
        (env.device (stateAfter env gm k (bodyState env gm st)).roundCount
          (dispatchCall gm (stateAfter env gm k (bodyState env gm st)))).result % u32 = 0 :=
      fun k hk => hyp (k + 1) (by omega)
    have hH2 : (bodyState env gm st).stats.HashesTried < u64 := by
      rw [hstats]
      exact Nat.mod_lt _ (by decide)
    obtain ⟨i1, i2, i3, i4, i5, i6, i7, i8, i9, i10⟩ := ih (bodyState env gm st) hH2 hyp2
    refine ⟨?_, ?_, ?_, ?_, ?_, ?_, ?_, ?_, ?_, ?_⟩
    · intro fuel
      rw [show n + 1 + fuel = (n + fuel) + 1 by omega, GPUMineLoop_succ, if_pos hrun, hbody]
      exact i1 fuel
    · simp only [stateAfter]; rw [i2, hround]; omega
    · simp only [stateAfter]
      rw [i3, hstats]
      simp only [MiningStats.IncrementHashes]
      rw [Nat.mod_add_mod]
      congr 1
      ring
    · simp only [stateAfter]; rw [i4, hstats]; rfl
    · simp only [stateAfter]; rw [i5, hcalls]; simp; omega
    · simp only [stateAfter]; rw [i6, hv]
    · simp only [stateAfter]; rw [i7, hp]
    · simp only [stateAfter]; rw [i8, hm]
    · simp only [stateAfter]; rw [i9, hb]
    · simp only [stateAfter]; rw [i10, hn]

theorem cudaError_ne_stopped (status : Int) : cudaError status ≠ stoppedError := by
  intro h
  have hd := congrArg String.data h
  simp [cudaError, stoppedError] at hd

theorem stateAfter_roundCount (env : Env) (gm : GPUMiner) :
    ∀ (n : Nat) (st : LoopState), (stateAfter env gm n st).roundCount = st.roundCount + n := by
  intro n
  induction n with
  | zero => intro st; rfl
  | succ n ih =>
    intro st
    simp only [stateAfter]
    rw [ih, (loopBody_calls env gm st).2]
    omega

theorem stateAt_roundCount (env : Env) (gm : GPUMiner) (header : BlockHeader) (k : Nat) :
    (stateAt env gm header k).roundCount = k := by
  unfold stateAt
  rw [stateAfter_roundCount]
  simp [initialState]

theorem replyAt_eq (env : Env) (gm : GPUMiner) (header : BlockHeader) (k : Nat) :
    replyAt env gm header k = env.device k (dispatchCall gm (stateAt env gm header k)) := by
  unfold replyAt
  rw [stateAt_roundCount]

/-- A session in which the first `n` batches succeed without a solution and
batch `n + 1` succeeds with the nonzero word `r`. -/
theorem GPUMine_solved_run (env : Env) (gm : GPUMiner) (header : BlockHeader) (n r extra : Nat)
    (hH : gm.Stats.HashesTried < u64)
    (hrun : ∀ k, k ≤ n → env.running k = true)
    (hzero : ∀ k, k < n → (replyAt env gm header k).status = 0 ∧
      (replyAt env gm header k).result % u32 = 0)
    (hwin : (replyAt env gm header n).status = 0 ∧ (replyAt env gm header n).result % u32 = r)
    (hr0 : r ≠ 0) :
    ∃ res, GPUMine env gm header (n + 1 + extra) = some res ∧
      res.err = none ∧ res.header = some res.final.header ∧
      res.final.header = { header with
        Nonce := r, Timestamp := res.final.header.Timestamp } ∧
      res.final.stats.BlocksFound = (gm.Stats.BlocksFound + 1) % u64 ∧
      res.final.stats.HashesTried =
        (gm.Stats.HashesTried + (n + 1) * gm.ThreadsPerRun) % u64 ∧
      res.final.calls.length = n + 1 := by
  have hyp : ∀ k, k < n →
      env.running (stateAfter env gm k (initialState env gm header)).roundCount = true ∧
      (env.device (stateAfter env gm k (initialState env gm header)).roundCount
        (dispatchCall gm (stateAfter env gm k (initialState env gm header)))).status = 0 ∧
      (env.device (stateAfter env gm k (initialState env gm header)).roundCount
        (dispatchCall gm (stateAfter env gm k (initialState env gm header)))).result % u32
          = 0 := by
    intro k hk
    refine ⟨?_, hzero k hk⟩
    rw [show (stateAfter env gm k (initialState env gm header)).roundCount = k from
      stateAt_roundCount env gm header k]
    exact hrun k (le_of_lt hk)
  obtain ⟨i1, i2, i3, i4, i5, i6, i7, i8, i9, i10⟩ :=
    stateAfter_noSolution env gm n (initialState env gm header) hH hyp
  have hround : (stateAfter env gm n (initialState env gm header)).roundCount = n := by
    rw [i2]; simp [initialState]
  have hs : (env.device (stateAfter env gm n (initialState env gm header)).roundCount
      (dispatchCall gm (stateAfter env gm n (initialState env gm header)))).status = 0 :=
    hwin.1
  have hr : (env.device (stateAfter env gm n (initialState env gm header)).roundCount
      (dispatchCall gm (stateAfter env gm n (initialState env gm header)))).result % u32 = r :=
    hwin.2
  have hbody := loopBody_solved env gm _ hs (by rw [hr]; exact hr0)
  have hstate := congrArg Prod.fst hbody
  have hret := congrArg Prod.snd hbody
  simp only at hstate hret
  have hgo : GPUMine env gm header (n + 1 + extra) =
      some { header := some { (stateAfter env gm n (initialState env gm header)).header with
               Nonce := r }
             err := none
             final := bodyState env gm (stateAfter env gm n (initialState env gm header)) } := by
    unfold GPUMine
    rw [show n + 1 + extra = n + (extra + 1) by omega, i1 (extra + 1),
      GPUMineLoop_return env gm extra _ _ _ (by rw [hround]; exact hrun n (le_refl n)) hret, hr]
  refine ⟨_, hgo, rfl, ?_, ?_, ?_, ?_, ?_⟩
  · simp only [bodyState, hstate, hr]
  · simp only [bodyState, hstate, hr]
    rw [BlockHeader.mk.injEq]
    exact ⟨i6, i7, i8, rfl, i9, rfl⟩
  · simp only [bodyState, hstate, MiningStats.IncrementBlocks, MiningStats.IncrementHashes]
    rw [i4]
    rfl
  · simp only [bodyState, hstate, MiningStats.IncrementBlocks, MiningStats.IncrementHashes]
    rw [i3, Nat.mod_add_mod]
    congr 1
    simp only [initialState]
    ring
  · rw [(loopBody_calls env gm _).1]
    simp only [List.length_append, List.length_singleton]
    rw [i5]
    simp [initialState]

/-- C3, as the code has it. From fresh stats, with the run flag staying set:
if the device returns status 0 with result 0 on the first `n` batches and
status 0 with a nonzero 32-bit result `r` on batch `n + 1`, then `GPUMine`
returns, without error, the header with `Nonce = r` (the other fields except
the timestamp as passed in), the blocks-found counter is 1, and hashes tried
is `(n + 1) * ThreadsPerRun` reduced modulo `2^64`, the width of the counter;
so it is exactly `(n + 1) * ThreadsPerRun` whenever that is below `2^64`. -/
theorem GPUMine_returns_solution (env : Env) (gm : GPUMiner) (header : BlockHeader)
    (n r extra : Nat) (hfresh : gm.Stats = MiningStats.fresh)
    (hrun : ∀ k, k ≤ n → env.running k = true)
    (hzero : ∀ k, k < n → (replyAt env gm header k).status = 0 ∧
      (replyAt env gm header k).result = 0)
    (hwin : (replyAt env gm header n).status = 0 ∧ (replyAt env gm header n).result = r)
    (hr0 : r ≠ 0) (hr : r < u32) :
    ∃ res, GPUMine env gm header (n + 1 + extra) = some res ∧
      res.err = none ∧ res.header = some res.final.header ∧
      res.final.header.Nonce = r ∧
      res.final.header.Version = header.Version ∧
      res.final.header.PrevBlockHash = header.PrevBlockHash ∧
      res.final.header.MerkleRoot = header.MerkleRoot ∧
      res.final.header.Bits = header.Bits ∧
      res.final.stats.BlocksFound = 1 ∧
      res.final.stats.HashesTried = ((n + 1) * gm.ThreadsPerRun) % u64 ∧
      ((n + 1) * gm.ThreadsPerRun < u64 →
        res.final.stats.HashesTried = (n + 1) * gm.ThreadsPerRun) := by
  obtain ⟨res, h1, h2, h3, h4, h5, h6, -⟩ :=
    GPUMine_solved_run env gm header n r extra (by rw [hfresh]; decide) hrun
      (fun k hk => ⟨(hzero k hk).1, by rw [(hzero k hk).2]; rfl⟩)
      ⟨hwin.1, by rw [hwin.2]; exact Nat.mod_eq_of_lt hr⟩ hr0
  have h6b : res.final.stats.HashesTried = ((n + 1) * gm.ThreadsPerRun) % u64 := by
    rw [h6, hfresh]
    simp [MiningStats.fresh]
  refine ⟨res, h1, h2, h3, ?_, ?_, ?_, ?_, ?_, ?_, h6b, ?_⟩
  · rw [h4]
  · rw [h4]
  · rw [h4]
  · rw [h4]
  · rw [h4]
  · rw [h5, hfresh]; rfl
  · intro hlt
    rw [h6b, Nat.mod_eq_of_lt hlt]

theorem stubEnv_zero (n r k : Nat) (hk : k < n) (c : DeviceCall) :
    ((stubEnv n r).device k c).status = 0 ∧ ((stubEnv n r).device k c).result % u32 = 0 := by
  have hne : k ≠ n := by omega
  simp [stubEnv, hne]

theorem stubEnv_win (n r : Nat) (hr : r < u32) (c : DeviceCall) :
    ((stubEnv n r).device n c).status = 0 ∧ ((stubEnv n r).device n c).result % u32 = r := by
  simp [stubEnv, Nat.mod_eq_of_lt hr]

theorem replyAt_stubEnv_zero (n r k : Nat) (gm : GPUMiner) (header : BlockHeader)
    (hk : k < n) :
    (replyAt (stubEnv n r) gm header k).status = 0 ∧
    (replyAt (stubEnv n r) gm header k).result = 0 := by
  have hne : k ≠ n := by omega
  rw [replyAt_eq]
  simp [stubEnv, hne]

theorem replyAt_stubEnv_win (n r : Nat) (gm : GPUMiner) (header : BlockHeader) :
    (replyAt (stubEnv n r) gm header n).status = 0 ∧
    (replyAt (stubEnv n r) gm header n).result = r := by
  rw [replyAt_eq]
  simp [stubEnv]

theorem replyAt_failingEnv_zero (n k : Nat) (s : Int) (gm : GPUMiner) (header : BlockHeader)
    (hk : k < n) :
    (replyAt (failingEnv n s) gm header k).status = 0 ∧
    (replyAt (failingEnv n s) gm header k).result % u32 = 0 := by
  have hne : k ≠ n := by omega
  rw [replyAt_eq]
  simp [failingEnv, hne]

theorem replyAt_failingEnv_fail (n : Nat) (s : Int) (gm : GPUMiner) (header : BlockHeader) :
    (replyAt (failingEnv n s) gm header n).status = s := by
  rw [replyAt_eq]
  simp [failingEnv]

/-- C3 on a stub that reports the nonce 7 on the third batch. -/
theorem GPUMine_returns_solution_witness :
    ∃ res, GPUMine (stubEnv 2 7) (NewGPUMiner false) sampleHeader 3 = some res ∧
      res.err = none ∧ res.header = some res.final.header ∧
      res.final.header.Nonce = 7 ∧ res.final.stats.BlocksFound = 1 ∧
      res.final.stats.HashesTried = 3 * 262144 := by
  obtain ⟨res, h1, h2, h3, h4, -, -, -, -, h5, -, h6⟩ :=
    GPUMine_returns_solution (stubEnv 2 7) (NewGPUMiner false) sampleHeader 2 7 0 rfl
      (fun _ _ => rfl)
      (fun k hk => replyAt_stubEnv_zero 2 7 k _ _ hk)
      (replyAt_stubEnv_win 2 7 _ _) (by decide) (by decide)
  exact ⟨res, h1, h2, h3, h4, h5, h6 (by decide)⟩

/-- C3 fails once the 64-bit counter wraps. With the default batch width
262144 and a stub that reports the nonce 7 on batch `2^46`, `GPUMine` returns
the solved header with one block found, and hashes tried is 0, not
`2^46 * 262144 = 2^64`. -/
theorem GPUMine_hashes_wrap :
    ∃ res, GPUMine (stubEnv 70368744177663 7) (NewGPUMiner false) sampleHeader
        70368744177664 = some res ∧
      res.err = none ∧ res.final.header.Nonce = 7 ∧ res.final.stats.BlocksFound = 1 ∧
      res.final.stats.HashesTried = 0 ∧
      res.final.stats.HashesTried ≠ (70368744177663 + 1) * (NewGPUMiner false).ThreadsPerRun := by
  obtain ⟨res, h1, h2, -, h4, h5, h6, -⟩ :=
    GPUMine_solved_run (stubEnv 70368744177663 7) (NewGPUMiner false) sampleHeader
      70368744177663 7 0 (by decide) (fun _ _ => rfl)
      (fun k hk => ⟨(replyAt_stubEnv_zero _ 7 k _ _ hk).1,
        by rw [(replyAt_stubEnv_zero _ 7 k _ _ hk).2]; rfl⟩)
      ⟨(replyAt_stubEnv_win _ 7 _ _).1, by rw [(replyAt_stubEnv_win _ 7 _ _).2]; rfl⟩
      (by decide)
  have h6b : res.final.stats.HashesTried = 0 := by
    rw [h6]
    simp [NewGPUMiner, MiningStats.fresh, u64]
  refine ⟨res, h1, h2, ?_, ?_, h6b, ?_⟩
  · rw [h4]
  · rw [h5]
    simp [NewGPUMiner, MiningStats.fresh, u64]
  · rw [h6b]
    simp [NewGPUMiner]

theorem bodyState_nonce_lt (env : Env) (gm : GPUMiner) (st : LoopState)
    (hc : st.nonce < u32) : (bodyState env gm st).nonce < u32 := by
  unfold bodyState loopBody
  simp only
  split
  · exact hc
  · split
    · exact hc
    · split
      · exact (by decide : 0 < u32)
      · exact Nat.mod_lt _ (by decide)

theorem stateAfter_nonce_lt (env : Env) (gm : GPUMiner) :
    ∀ (n : Nat) (st : LoopState), st.nonce < u32 → (stateAfter env gm n st).nonce < u32 := by
  intro n
  induction n with
  | zero => intro st h; exact h
  | succ n ih => intro st h; exact ih _ (bodyState_nonce_lt env gm st h)

theorem wrap_detected_iff (c T : Nat) (hc : c < u32) (hT : T < u32) :
    (c + T) % u32 < T ↔ u32 ≤ c + T := by
  simp only [u32] at *
  omega

/-- C4, as the code has it. For a 32-bit nonce cursor `c` and batch width
`T > 0`, after a successful batch without a solution the test
`nonce < ThreadsPerRun` on the wrapped sum holds exactly when
`c + T >= 2^32`. If `c + T < 2^32` the next cursor is `c + T` and the header is
unchanged; otherwise the next cursor is 0 and the header timestamp is the
clock reading in Unix seconds, as a `uint32`. In both cases hashes tried has
grown by `T` modulo `2^64`, the width of the counter, so by exactly `T`
whenever the sum stays below `2^64`. -/
theorem nonce_cursor_advance (env : Env) (gm : GPUMiner) (st : LoopState)
    (hc : st.nonce < u32) (hT : gm.ThreadsPerRun < u32)
    (hs : (env.device st.roundCount (dispatchCall gm st)).status = 0)
    (hr : (env.device st.roundCount (dispatchCall gm st)).result % u32 = 0) :
    loopBody env gm st = (bodyState env gm st, none) ∧
    ((st.nonce + gm.ThreadsPerRun) % u32 < gm.ThreadsPerRun ↔
      u32 ≤ st.nonce + gm.ThreadsPerRun) ∧
    (st.nonce + gm.ThreadsPerRun < u32 →
      (bodyState env gm st).nonce = st.nonce + gm.ThreadsPerRun ∧
      (bodyState env gm st).header = st.header) ∧
    (u32 ≤ st.nonce + gm.ThreadsPerRun →
      (bodyState env gm st).nonce = 0 ∧
      (bodyState env gm st).header = { st.header with
        Timestamp := toUint32 (unixSeconds (env.now (st.clockReads + 1))) }) ∧
    (bodyState env gm st).stats.HashesTried =
      (st.stats.HashesTried + gm.ThreadsPerRun) % u64 ∧
    (st.stats.HashesTried + gm.ThreadsPerRun < u64 →
      (bodyState env gm st).stats.HashesTried = st.stats.HashesTried + gm.ThreadsPerRun) := by
  obtain ⟨hbody, hstats, hnonce, hheader⟩ := loopBody_noSolution env gm st hs hr
  have hiff := wrap_detected_iff st.nonce gm.ThreadsPerRun hc hT
  refine ⟨hbody, hiff, ?_, ?_, ?_, ?_⟩
  · intro hlt
    have hno : ¬ (st.nonce + gm.ThreadsPerRun) % u32 < gm.ThreadsPerRun := by
      rw [hiff]; omega
    rw [hnonce, hheader, if_neg hno, if_neg hno]
    exact ⟨Nat.mod_eq_of_lt hlt, rfl⟩
  · intro hge
    have hyes : (st.nonce + gm.ThreadsPerRun) % u32 < gm.ThreadsPerRun := hiff.2 hge
    rw [hnonce, hheader, if_pos hyes, if_pos hyes]
    exact ⟨rfl, rfl⟩
  · rw [hstats]; rfl
  · intro hlt
    rw [hstats]
    exact Nat.mod_eq_of_lt hlt

/-- C4 on a state whose cursor 4294900000 wraps with the default batch
width 262144. -/
theorem nonce_cursor_advance_witness :
    wrapState.nonce < u32 ∧ u32 ≤ wrapState.nonce + (NewGPUMiner false).ThreadsPerRun ∧
    (bodyState (stubEnv 20000 7) (NewGPUMiner false) wrapState).nonce = 0 ∧
    (bodyState (stubEnv 20000 7) (NewGPUMiner false) wrapState).header =
      { sampleHeader with Timestamp := toUint32 (unixSeconds
          ((stubEnv 20000 7).now (wrapState.clockReads + 1))) } ∧
    (bodyState (stubEnv 20000 7) (NewGPUMiner false) wrapState).stats.HashesTried =
      4294705152 + 262144 :=
  ⟨by decide, by decide,
    ((nonce_cursor_advance (stubEnv 20000 7) (NewGPUMiner false) wrapState (by decide)
      (by decide) (by rfl) (by rfl)).2.2.2.1 (by decide)).1,
    ((nonce_cursor_advance (stubEnv 20000 7) (NewGPUMiner false) wrapState (by decide)
      (by decide) (by rfl) (by rfl)).2.2.2.1 (by decide)).2,
    (nonce_cursor_advance (stubEnv 20000 7) (NewGPUMiner false) wrapState (by decide)
      (by decide) (by rfl) (by rfl)).2.2.2.2.2 (by decide)⟩

theorem counter_wraps (env : Env) (gm : GPUMiner) (st : LoopState)
    (hs : (env.device st.roundCount (dispatchCall gm st)).status = 0)
    (hr : (env.device st.roundCount (dispatchCall gm st)).result % u32 = 0)
    (hH : st.stats.HashesTried = 18446744073709289472) (hT : gm.ThreadsPerRun = 262144) :
    (loopBody env gm st).2 = none ∧
    (bodyState env gm st).stats.HashesTried = 0 ∧
    (bodyState env gm st).stats.HashesTried ≠ st.stats.HashesTried + gm.ThreadsPerRun := by
  obtain ⟨hbody, hstats, -, -⟩ := loopBody_noSolution env gm st hs hr
  have hnew : (bodyState env gm st).stats.HashesTried = 0 := by
    rw [hstats]
    show (st.stats.HashesTried + gm.ThreadsPerRun) % u64 = 0
    rw [hH, hT]
    rfl
  refine ⟨by rw [hbody], hnew, ?_⟩
  rw [hnew, hH, hT]
  decide

/-- C4 fails once the 64-bit counter wraps. In the state a default session
reaches after `2^46 - 1` batches without a solution, the cursor is 32-bit, the
batch width is 262144 and hashes tried is `2^64 - 262144`; after one more
successful batch without a solution hashes tried is 0: it has not grown by
the batch width and the running total is lost. -/
theorem hashes_total_wraps :
    lateState.nonce < u32 ∧ 0 < (NewGPUMiner false).ThreadsPerRun ∧
    ((stubEnv 70368744177664 7).device lateState.roundCount
      (dispatchCall (NewGPUMiner false) lateState)).status = 0 ∧
    ((stubEnv 70368744177664 7).device lateState.roundCount
      (dispatchCall (NewGPUMiner false) lateState)).result % u32 = 0 ∧
    (loopBody (stubEnv 70368744177664 7) (NewGPUMiner false) lateState).2 = none ∧
    lateState.stats.HashesTried = 18446744073709289472 ∧
    (bodyState (stubEnv 70368744177664 7) (NewGPUMiner false) lateState).stats.HashesTried = 0 ∧
    (bodyState (stubEnv 70368744177664 7) (NewGPUMiner false) lateState).stats.HashesTried ≠
      lateState.stats.HashesTried + (NewGPUMiner false).ThreadsPerRun := by
  have hyp : ∀ k, k < 70368744177663 →
      (stubEnv 70368744177664 7).running
        (stateAfter (stubEnv 70368744177664 7) (NewGPUMiner false) k
          (initialState (stubEnv 70368744177664 7) (NewGPUMiner false) sampleHeader)).roundCount
        = true ∧
      ((stubEnv 70368744177664 7).device
        (stateAfter (stubEnv 70368744177664 7) (NewGPUMiner false) k
          (initialState (stubEnv 70368744177664 7) (NewGPUMiner false) sampleHeader)).roundCount
        (dispatchCall (NewGPUMiner false)
          (stateAfter (stubEnv 70368744177664 7) (NewGPUMiner false) k
            (initialState (stubEnv 70368744177664 7) (NewGPUMiner false) sampleHeader)))).status
        = 0 ∧
      ((stubEnv 70368744177664 7).device
        (stateAfter (stubEnv 70368744177664 7) (NewGPUMiner false) k
          (initialState (stubEnv 70368744177664 7) (NewGPUMiner false) sampleHeader)).roundCount
        (dispatchCall (NewGPUMiner false)
          (stateAfter (stubEnv 70368744177664 7) (NewGPUMiner false) k
            (initialState (stubEnv 70368744177664 7) (NewGPUMiner false) sampleHeader)))).result
        % u32 = 0 := by
    intro k hk
    have hz := replyAt_stubEnv_zero 70368744177664 7 k (NewGPUMiner false) sampleHeader
      (by omega)
    have h2 : (replyAt (stubEnv 70368744177664 7) (NewGPUMiner false) sampleHeader k).result
        % u32 = 0 := by
      rw [hz.2]; rfl
    exact ⟨rfl, hz.1, h2⟩
  obtain ⟨-, i2, i3, -⟩ := stateAfter_noSolution (stubEnv 70368744177664 7) (NewGPUMiner false)
    70368744177663 (initialState (stubEnv 70368744177664 7) (NewGPUMiner false) sampleHeader)
    (by decide) hyp
  have hround : lateState.roundCount = 70368744177663 := by
    unfold lateState; rw [i2]; simp [initialState]
  have hH : lateState.stats.HashesTried = 18446744073709289472 := by
    unfold lateState; rw [i3]; simp [initialState, NewGPUMiner, MiningStats.fresh, u64]
  have hdev := stubEnv_zero 70368744177664 7 lateState.roundCount (by rw [hround]; decide)
    (dispatchCall (NewGPUMiner false) lateState)
  obtain ⟨g1, g2, g3⟩ := counter_wraps (stubEnv 70368744177664 7) (NewGPUMiner false)
    lateState hdev.1 hdev.2 hH rfl
  have hnonce : lateState.nonce < u32 := by
    unfold lateState
    exact stateAfter_nonce_lt _ _ _ _ (by decide)
  exact ⟨hnonce, by decide, hdev.1, hdev.2, g1, hH, g2, g3⟩

theorem loopBody_target_free (env : Env) (gm : GPUMiner) (t : Option Int) (st : LoopState) :
    loopBody env { gm with Target := t } st = loopBody env gm st := rfl

theorem GPUMineLoop_target_free (env : Env) (gm : GPUMiner) (t : Option Int) :
    ∀ (fuel : Nat) (st : LoopState),
    GPUMineLoop env { gm with Target := t } fuel st = GPUMineLoop env gm fuel st := by
  intro fuel
  induction fuel with
  | zero => intro st; rfl
  | succ fuel ih =>
    intro st
    rw [GPUMineLoop_succ, GPUMineLoop_succ, loopBody_target_free]
    split
    · rcases loopBody env gm st with ⟨st2, ret⟩
      cases ret with
      | none => exact ih st2
      | some v => rfl
    · rfl

theorem GPUMineLoop_calls (env : Env) (gm : GPUMiner) (P : DeviceCall → Prop)
    (hP : ∀ st, P (dispatchCall gm st)) :
    ∀ (fuel : Nat) (st : LoopState) (res : MineResult), (∀ c ∈ st.calls, P c) →
      GPUMineLoop env gm fuel st = some res → ∀ c ∈ res.final.calls, P c := by
  intro fuel
  induction fuel with
  | zero => intro st res _ h; simp [GPUMineLoop] at h
  | succ fuel ih =>
    intro st res hst h
    rw [GPUMineLoop_succ] at h
    have hnext : ∀ c ∈ (bodyState env gm st).calls, P c := by
      intro c hc
      rw [(loopBody_calls env gm st).1] at hc
      rcases List.mem_append.1 hc with hc | hc
      · exact hst c hc
      · simp only [List.mem_singleton] at hc
        rw [hc]
        exact hP st
    split at h
    · unfold bodyState at hnext
      rcases hbody : loopBody env gm st with ⟨st2, ret⟩
      rw [hbody] at h hnext
      cases ret with
      | none => exact ih st2 res hnext h
      | some v =>
        simp only [Option.some.injEq] at h
        rw [← h]
        exact hnext
    · simp only [Option.some.injEq] at h
      rw [← h]
      exact hst

/-- C6, as the code has it. On every iteration the device is invoked with
the serialization of the current header, the current nonce cursor, the fixed
target word `0x0000FFFF` and the batch width `ThreadsPerRun`. The miner's
`Target` field does not enter the call: replacing it changes neither the
arguments nor the outcome of `GPUMine`, and every call a session has made
carries the target word `0x0000FFFF`. -/
theorem dispatch_arguments (env : Env) (gm : GPUMiner) (header : BlockHeader) (fuel : Nat)
    (st : LoopState) (t : Option Int) :
    dispatchCall gm st =
      { header := st.header.Serialize, nonceStart := st.nonce, target := 0x0000FFFF,
        threads := gm.ThreadsPerRun } ∧
    (bodyState env gm st).calls = st.calls ++ [dispatchCall gm st] ∧
    dispatchCall { gm with Target := t } st = dispatchCall gm st ∧
    GPUMine env { gm with Target := t } header fuel = GPUMine env gm header fuel ∧
    (∀ res, GPUMine env gm header fuel = some res →
      ∀ c ∈ res.final.calls, c.target = 0x0000FFFF ∧ c.threads = gm.ThreadsPerRun) := by
  refine ⟨rfl, (loopBody_calls env gm st).1, rfl, ?_, ?_⟩
  · unfold GPUMine
    rw [GPUMineLoop_target_free]
    rfl
  · intro res h
    exact GPUMineLoop_calls env gm
      (fun c => c.target = 0x0000FFFF ∧ c.threads = gm.ThreadsPerRun)
      (fun _ => ⟨rfl, rfl⟩) fuel _ res (by simp [initialState]) h

/-- C6 on a session that ends at its second batch. -/
theorem dispatch_arguments_witness :
    ∃ res, GPUMine (stubEnv 1 7) minerA sampleHeader 2 = some res ∧
      ∀ c ∈ res.final.calls, c.target = 0x0000FFFF ∧ c.threads = minerA.ThreadsPerRun := by
  obtain ⟨res, h, -⟩ := GPUMine_solved_run (stubEnv 1 7) minerA sampleHeader 1 7 0
    (by decide) (fun _ _ => rfl)
    (fun k hk => ⟨(replyAt_stubEnv_zero 1 7 k _ _ hk).1,
      by rw [(replyAt_stubEnv_zero 1 7 k _ _ hk).2]; rfl⟩)
    ⟨(replyAt_stubEnv_win 1 7 _ _).1, by rw [(replyAt_stubEnv_win 1 7 _ _).2]; rfl⟩
    (by decide)
  exact ⟨res, h,
    (dispatch_arguments (stubEnv 1 7) minerA sampleHeader 2 wrapState none).2.2.2.2 res h⟩

/-- C6 fails on the target argument. Two miners whose `Target` fields are the
expansions of `0x1d00ffff` and `0x1c00ffff` hold different targets and hand
the device the same call, whose target word is `0x0000FFFF`. -/
theorem dispatch_ignores_Target :
    minerA.Target = some (BitsToTarget 0x1d00ffff) ∧
    minerB.Target = some (BitsToTarget 0x1c00ffff) ∧
    minerA.Target ≠ minerB.Target ∧
    dispatchCall minerA (initialState (stubEnv 1 7) minerA sampleHeader) =
      dispatchCall minerB (initialState (stubEnv 1 7) minerB sampleHeader) ∧
    (dispatchCall minerA (initialState (stubEnv 1 7) minerA sampleHeader)).target = 65535 ∧
    (dispatchCall minerB (initialState (stubEnv 1 7) minerB sampleHeader)).target = 65535 := by
  refine ⟨rfl, rfl, ?_, by simp only [dispatchCall, initialState, minerA, minerB, NewGPUMiner],
    rfl, rfl⟩
  have hA : BitsToTarget 0x1d00ffff = 0xffff * 2 ^ 208 := by rfl
  have hB : BitsToTarget 0x1c00ffff = 0xffff * 2 ^ 200 := by rfl
  simp only [minerA, minerB, hA, hB, ne_eq, Option.some.injEq]
  norm_num

/-- A session in which the first `n` batches succeed without a solution and
the device returns the nonzero status `s` on batch `n + 1`. -/
theorem GPUMine_failed_run (env : Env) (gm : GPUMiner) (header : BlockHeader) (n extra : Nat)
    (s : Int) (hH : gm.Stats.HashesTried < u64)
    (hrun : ∀ k, k ≤ n → env.running k = true)
    (hzero : ∀ k, k < n → (replyAt env gm header k).status = 0 ∧
      (replyAt env gm header k).result % u32 = 0)
    (hfail : (replyAt env gm header n).status = s) (hs : s ≠ 0) :
    ∃ res, GPUMine env gm header (n + 1 + extra) = some res ∧
      res.header = none ∧ res.err = some (cudaError s) ∧
      res.final.calls = (stateAfter env gm n (initialState env gm header)).calls ++
        [dispatchCall gm (stateAfter env gm n (initialState env gm header))] ∧
      res.final.calls.length = n + 1 ∧
      res.final.stats = (stateAfter env gm n (initialState env gm header)).stats ∧
      res.final.stats.HashesTried = (gm.Stats.HashesTried + n * gm.ThreadsPerRun) % u64 ∧
      res.final.stats.BlocksFound = gm.Stats.BlocksFound := by
  have hyp : ∀ k, k < n →
      env.running (stateAfter env gm k (initialState env gm header)).roundCount = true ∧
      (env.device (stateAfter env gm k (initialState env gm header)).roundCount
        (dispatchCall gm (stateAfter env gm k (initialState env gm header)))).status = 0 ∧
      (env.device (stateAfter env gm k (initialState env gm header)).roundCount
        (dispatchCall gm (stateAfter env gm k (initialState env gm header)))).result % u32
          = 0 := by
    intro k hk
    refine ⟨?_, hzero k hk⟩
    rw [show (stateAfter env gm k (initialState env gm header)).roundCount = k from
      stateAt_roundCount env gm header k]
    exact hrun k (le_of_lt hk)
  obtain ⟨i1, i2, i3, i4, i5, -⟩ :=
    stateAfter_noSolution env gm n (initialState env gm header) hH hyp
  have hround : (stateAfter env gm n (initialState env gm header)).roundCount = n := by
    rw [i2]; simp [initialState]
  have hst : (env.device (stateAfter env gm n (initialState env gm header)).roundCount
      (dispatchCall gm (stateAfter env gm n (initialState env gm header)))).status = s := by
    exact hfail
  have hbody := loopBody_failed env gm (stateAfter env gm n (initialState env gm header))
    (by rw [hst]; exact hs)
  have hstate := congrArg Prod.fst hbody
  have hret := congrArg Prod.snd hbody
  simp only at hstate hret
  have hgo : GPUMine env gm header (n + 1 + extra) =
      some { header := none
             err := some (cudaError s)
             final := bodyState env gm (stateAfter env gm n (initialState env gm header)) } := by
    unfold GPUMine
    rw [show n + 1 + extra = n + (extra + 1) by omega, i1 (extra + 1),
      GPUMineLoop_return env gm extra _ _ _ (by rw [hround]; exact hrun n (le_refl n)) hret, hst]
  refine ⟨_, hgo, rfl, rfl, (loopBody_calls env gm _).1, ?_, ?_, ?_, ?_⟩
  · rw [(loopBody_calls env gm _).1]
    simp only [List.length_append, List.length_singleton]
    rw [i5]
    simp [initialState]
  · simp only [bodyState, hstate]
  · simp only [bodyState, hstate]
    rw [i3]
    rfl
  · simp only [bodyState, hstate]
    rw [i4]
    rfl

/-- C7. If, after `n` successful batches without a solution and with the run
flag set, the device returns a nonzero status `s` on batch `n + 1`, then
`GPUMine` returns no header and the error `CUDA Mining Fehler: s`, which
differs from the error returned on a stop; the failing call is the last one
made (the trace holds `n + 1` calls); and the stats are exactly those that
held after batch `n`: hashes tried counts `n` batches and blocks found is
unchanged. -/
theorem GPUMine_device_failure (env : Env) (gm : GPUMiner) (header : BlockHeader)
    (n extra : Nat) (s : Int) (hH : gm.Stats.HashesTried < u64)
    (hrun : ∀ k, k ≤ n → env.running k = true)
    (hzero : ∀ k, k < n → (replyAt env gm header k).status = 0 ∧
      (replyAt env gm header k).result % u32 = 0)
    (hfail : (replyAt env gm header n).status = s) (hs : s ≠ 0) :
    ∃ res, GPUMine env gm header (n + 1 + extra) = some res ∧
      res.header = none ∧
      res.err = some ("CUDA Mining Fehler: " ++ toString s) ∧
      res.err ≠ some stoppedError ∧ res.err ≠ none ∧
      res.final.calls = (stateAfter env gm n (initialState env gm header)).calls ++
        [dispatchCall gm (stateAfter env gm n (initialState env gm header))] ∧
      res.final.calls.length = n + 1 ∧
      res.final.stats = (stateAfter env gm n (initialState env gm header)).stats ∧
      res.final.stats.HashesTried = (gm.Stats.HashesTried + n * gm.ThreadsPerRun) % u64 ∧
      res.final.stats.BlocksFound = gm.Stats.BlocksFound := by
  obtain ⟨res, h1, h2, h3, h4, h5, h6, h7, h8⟩ :=
    GPUMine_failed_run env gm header n extra s hH hrun hzero hfail hs
  refine ⟨res, h1, h2, h3, ?_, ?_, h4, h5, h6, h7, h8⟩
  · rw [h3]
    intro h
    exact cudaError_ne_stopped s (Option.some.inj h)
  · rw [h3]
    exact Option.some_ne_none _

/-- C7 on a stub that fails with status 700 on the third batch. -/
theorem GPUMine_device_failure_witness :
    ∃ res, GPUMine (failingEnv 2 700) (NewGPUMiner false) sampleHeader 3 = some res ∧
      res.header = none ∧ res.err = some ("CUDA Mining Fehler: " ++ toString (700 : Int)) ∧
      res.err ≠ some stoppedError ∧ res.final.calls.length = 3 ∧
      res.final.stats.HashesTried = 2 * 262144 ∧ res.final.stats.BlocksFound = 0 := by
  obtain ⟨res, h1, h2, h3, h4, -, -, h5, -, h6, h7⟩ :=
    GPUMine_device_failure (failingEnv 2 700) (NewGPUMiner false) sampleHeader 2 0 700
      (by decide) (fun _ _ => rfl)
      (fun k hk => replyAt_failingEnv_zero 2 k 700 _ _ hk)
      (replyAt_failingEnv_fail 2 700 _ _) (by decide)
  exact ⟨res, h1, h2, h3, h4, h5, by rw [h6]; rfl, by rw [h7]; rfl⟩

/-! ## Hash rate -/

theorem roundNat53_pos (n : Nat) (hn : n ≠ 0) : 0 < roundNat53 n := by
  unfold roundNat53
  split
  · omega
  · simp only
    have hpow : 2 ^ (Nat.log2 n - 52) ≤ n :=
      le_trans (Nat.pow_le_pow_right (by decide) (Nat.sub_le _ _)) (Nat.log2_self_le hn)
    have hq : 0 < n / 2 ^ (Nat.log2 n - 52) :=
      Nat.div_pos hpow (Nat.pos_pow_of_pos _ (by decide))
    have h2 : 0 < 2 ^ (Nat.log2 n - 52) := Nat.pos_pow_of_pos _ (by decide)
    split
    · exact Nat.mul_pos (by omega) h2
    · exact Nat.mul_pos hq h2

theorem durationSeconds_zero (rnd : ℚ → F64) : durationSeconds rnd 0 = F64.zero false := by
  simp [durationSeconds, Second, F64.ofInt, F64.div, F64.add]

theorem hashRate_elapsed_zero (rnd : ℚ → F64) (ms : MiningStats) (now : Int)
    (h0 : timeSub now ms.StartTime = 0) :
    (ms.GetDetailedStats rnd now).2.2.2.1 =
      if ms.HashesTried = 0 then F64.nan else F64.inf false := by
  simp only [MiningStats.GetDetailedStats, h0, durationSeconds_zero]
  by_cases hH : ms.HashesTried = 0
  · simp [hH, F64.ofNat, F64.div]
  · have hpos := roundNat53_pos ms.HashesTried hH
    have hq : ¬ ((roundNat53 ms.HashesTried : ℚ) < 0) := by
      push_neg
      exact_mod_cast Nat.zero_le _
    simp [hH, F64.ofNat, F64.div, hq]

/-- C10, as the code has it. When the elapsed time since `StartTime` is zero
at the snapshot, `GetDetailedStats` divides without a guard: the returned
elapsed time is 0 and the hash rate is the IEEE-754 quotient of
`float64(HashesTried)` by `+0`, that is `+Inf` when hashes tried is positive
and NaN when it is zero; it is never a zero. -/
theorem GetDetailedStats_zero_elapsed (rnd : ℚ → F64) (ms : MiningStats) (now : Int)
    (h0 : timeSub now ms.StartTime = 0) :
    (ms.GetDetailedStats rnd now).2.2.1 = 0 ∧
    (ms.GetDetailedStats rnd now).2.2.2.1 =
      (if ms.HashesTried = 0 then F64.nan else F64.inf false) ∧
    ∀ b, (ms.GetDetailedStats rnd now).2.2.2.1 ≠ F64.zero b := by
  refine ⟨h0, hashRate_elapsed_zero rnd ms now h0, ?_⟩
  intro b
  rw [hashRate_elapsed_zero rnd ms now h0]
  split <;> simp

/-- C10 on a record with 262144 hashes read at its start time. -/
theorem GetDetailedStats_zero_elapsed_witness :
    timeSub 5 statsAtStart.StartTime = 0 ∧
    (statsAtStart.GetDetailedStats exactRnd 5).2.2.2.1 = F64.inf false :=
  ⟨by decide, (GetDetailedStats_zero_elapsed exactRnd statsAtStart 5 (by decide)).2.1⟩

/-- C10 fails: the division is not guarded. For a record with 262144 hashes
whose snapshot is taken at its start time, the elapsed time is 0 and the
returned hash rate is `+Inf`, not 0. -/
theorem hashRate_unguarded :
    (statsAtStart.GetDetailedStats exactRnd 5).2.2.1 = 0 ∧
    (statsAtStart.GetDetailedStats exactRnd 5).1 = 262144 ∧
    (statsAtStart.GetDetailedStats exactRnd 5).2.2.2.1 = F64.inf false ∧
    (statsAtStart.GetDetailedStats exactRnd 5).2.2.2.1 ≠ F64.zero false := by
  have h := hashRate_elapsed_zero exactRnd statsAtStart 5 (by decide)
  rw [if_neg (by decide)] at h
  refine ⟨by decide, rfl, h, ?_⟩
  rw [h]
  simp

end Miner
